import Mathlib

/-!
Verification of the ARARASVIEW Cerrado biome-classification pipeline
(`src/app.py`) against its natural-language specification.

The pipeline is embedded shallowly:

* images are total functions `ℕ → ℕ → ℕ × ℕ × ℕ` (row, column ↦ RGB triple),
  evaluated only inside the stated bounds;
* percentages are exact rationals `ℚ` (the Python floats involved are ratios
  of small integers times 100, represented exactly);
* the OpenCV colour-space conversions `RGB2GRAY` and `RGB2LAB` are external
  library calls, modelled as parameters `grayF` / `labF` mapping an RGB pixel
  to its grayscale value, resp. its `(L, a, b)` triple;
* the discrete Laplacian (`cv2.Laplacian`, aperture 1, `BORDER_REFLECT_101`)
  is embedded concretely;
* `BiomeClass` values are the exact strings the source returns;
* an uncaught Python exception is an `Except.error` carrying the Python
  error kind.
-/

/-- An RGB image: row, column ↦ (R, G, B). -/
abbrev Img : Type := ℕ → ℕ → ℕ × ℕ × ℕ

/-- A boolean mask over an image. -/
abbrev Mask : Type := ℕ → ℕ → Bool

/-- The biome decision function, from `classify_biome` in `src/app.py`
(lines 109–150).  The local variable of the source `has_rock = (rock_pct > 8.0) or
force_rock` is inlined at its two use sites; the branches follow the
if/elif chain of the source literally. -/
def classify_biome (veg_pct rock_pct : ℚ) (wet_soil force_rock : Bool) : String :=
  if veg_pct > 80 then
    if wet_soil then "Mata de Galeria" else "Mata Seca"
  else if veg_pct ≥ 50 then
    "Cerradão"
  else if veg_pct ≥ 5 then
    if decide (rock_pct > 8) || force_rock then "Cerrado Rupestre"
    else if wet_soil then "Vereda"
    else if veg_pct > 40 then "Cerrado Denso"
    else if veg_pct ≥ 20 then "Cerrado Típico"
    else "Cerrado Ralo"
  else
    if decide (rock_pct > 8) || force_rock then "Campo Rupestre"
    else if wet_soil then "Campo Úmido"
    else if veg_pct > 1 then "Campo Sujo"
    else "Campo Limpo"

/-- Modelled from the spec: the decision order exactly as §4.3 of the spec
states it, with the explicit range guards of the spec (`50 ≤ vegPct ≤ 80`,
`5 ≤ vegPct < 50`, `vegPct < 5`).  Used only to compare against
`classify_biome`. -/
def classifySpec (vegPct rockPct : ℚ) (wetSoil forceRock : Bool) : String :=
  if vegPct > 80 then
    if wetSoil then "Mata de Galeria" else "Mata Seca"
  else if 50 ≤ vegPct ∧ vegPct ≤ 80 then
    "Cerradão"
  else if 5 ≤ vegPct ∧ vegPct < 50 then
    if rockPct > 8 ∨ forceRock = true then "Cerrado Rupestre"
    else if wetSoil then "Vereda"
    else if vegPct > 40 then "Cerrado Denso"
    else if vegPct ≥ 20 then "Cerrado Típico"
    else "Cerrado Ralo"
  else
    if rockPct > 8 ∨ forceRock = true then "Campo Rupestre"
    else if wetSoil then "Campo Úmido"
    else if vegPct > 1 then "Campo Sujo"
    else "Campo Limpo"

/-- The static display-colour table `COLOR_MAP` from `src/app.py`
(lines 41–60), in source order, as an association list of RGB triples. -/
def COLOR_MAP : List (String × ℕ × ℕ × ℕ) :=
  [("Mata de Galeria", (0, 100, 0)),
   ("Mata Ciliar", (34, 139, 34)),
   ("Mata Seca", (85, 107, 47)),
   ("Cerradão", (0, 128, 0)),
   ("Cerrado Denso", (50, 205, 50)),
   ("Cerrado Típico", (173, 255, 47)),
   ("Cerrado Ralo", (240, 230, 140)),
   ("Cerrado Rupestre", (160, 82, 45)),
   ("Vereda", (0, 255, 255)),
   ("Campo Sujo", (218, 165, 32)),
   ("Campo Limpo", (255, 255, 0)),
   ("Campo Úmido", (70, 130, 180)),
   ("Campo Rupestre", (119, 136, 153))]

/-- The Python construct `dict.get(key, default)` on an association list, as used on
`COLOR_MAP` in `src/app.py` line 198. -/
def dictGet {α : Type} (m : List (String × α)) (k : String) (d : α) : α :=
  match m with
  | [] => d
  | (k0, v) :: rest => if k0 = k then v else dictGet rest k d

/-- Modelled from the spec: the list, found in the Glossary, of the twelve BiomeClass
names, in Glossary order. -/
def glossaryClasses : List String :=
  ["Mata de Galeria", "Mata Seca", "Cerradão",
   "Cerrado Denso", "Cerrado Típico", "Cerrado Ralo", "Cerrado Rupestre", "Vereda",
   "Campo Sujo", "Campo Limpo", "Campo Úmido", "Campo Rupestre"]

/-- Per-pixel vegetation test of the Band Index Engine, from
`calculate_ngrdi` in `src/app.py` (lines 62–77): the pixel is vegetated iff
`(G - R) / (G + R + 1e-6) > 0.03`, computed here in exact rationals. -/
def calculate_ngrdi_px (r g : ℕ) : Bool :=
  decide (((g : ℚ) - r) / ((g : ℚ) + r + 1/1000000) > 3/100)

/-- The `BORDER_REFLECT_101` index reflection used by `cv2.Laplacian` at the
image border: `-1 ↦ 1` and `n ↦ n - 2`. -/
def reflIdx (n : ℕ) (i : ℤ) : ℤ :=
  if i < 0 then -i else if (n : ℤ) ≤ i then 2 * ((n : ℤ) - 1) - i else i

/-- The grayscale image read at reflected integer coordinates. -/
def grayAt (g : ℕ → ℕ → ℕ) (h w : ℕ) (i j : ℤ) : ℤ :=
  (g (reflIdx h i).toNat (reflIdx w j).toNat : ℤ)

/-- The value `np.absolute(cv2.Laplacian(gray, CV_64F))` at pixel `(i, j)`: the
absolute value of the aperture-1 discrete Laplacian
(kernel `[[0,1,0],[1,-4,1],[0,1,0]]`) of the grayscale image, with
reflect-101 border handling.  From `src/app.py` lines 87–88. -/
def laplacianAbs (g : ℕ → ℕ → ℕ) (h w : ℕ) (i j : ℕ) : ℤ :=
  |grayAt g h w ((i : ℤ) - 1) j + grayAt g h w ((i : ℤ) + 1) j
    + grayAt g h w i ((j : ℤ) - 1) + grayAt g h w i ((j : ℤ) + 1)
    - 4 * grayAt g h w i j|

/-- The squared chromaticity `(a - 128)² + (b - 128)²` of an 8-bit CIELab
pixel.  The source compares `sqrt((a-128)² + (b-128)²) < 18`; the embedding
compares the square against `18²`; a theorem below proves the two
formulations equivalent. -/
def chromaSq (a b : ℕ) : ℤ :=
  ((a : ℤ) - 128) ^ 2 + ((b : ℤ) - 128) ^ 2

/-- Per-pixel rock test of the Substrate Texture Engine, from
`calculate_mineral_indices` in `src/app.py` (lines 79–107).  The OpenCV
colour conversions are supplied as parameters: `grayF` models `RGB2GRAY`
and `labF` models `RGB2LAB` (pixel ↦ `(L, a, b)`). -/
def calculate_mineral_indices (img : Img)
    (grayF : ℕ × ℕ × ℕ → ℕ) (labF : ℕ × ℕ × ℕ → ℕ × ℕ × ℕ)
    (h w i j : ℕ) : Bool :=
  decide (140 < (labF (img i j)).1) &&
  decide (chromaSq (labF (img i j)).2.1 (labF (img i j)).2.2 < 18 ^ 2) &&
  decide (15 < laplacianAbs (fun y x => grayF (img y x)) h w i j)

/-- The full-resolution vegetation mask (`veg_mask` in `process_image`,
line 164): channel 0 is red, channel 1 is green. -/
def vegMaskOf (img : Img) : Mask :=
  fun i j => calculate_ngrdi_px (img i j).1 (img i j).2.1

/-- The full-resolution rock mask (`rock_mask` in `process_image`,
line 165). -/
def rockMaskOf (img : Img) (grayF : ℕ × ℕ × ℕ → ℕ)
    (labF : ℕ × ℕ × ℕ → ℕ × ℕ × ℕ) (h w : ℕ) : Mask :=
  fun i j => calculate_mineral_indices img grayF labF h w i j

/-- The Python `range(0, stop, step)` for `step ≥ 1`: the multiples of `step`
below `stop`, in increasing order. -/
def pyRange (stop step : ℕ) : List ℕ :=
  (List.range ((stop + step - 1) / step)).map (· * step)

/-- The grid-cell origins `(y, x)` walked by the nested loops of
`process_image` (lines 175–176), outer loop over rows. -/
def cellList (h w sy sx : ℕ) : List (ℕ × ℕ) :=
  (pyRange h sy).flatMap fun y => (pyRange w sx).map fun x => (y, x)

/-- Pixel `(i, j)` lies in the cell with origin `c = (y, x)`: the far edges of the cell are `min (origin + step) dimension` (lines 178–179). -/
def inCell (h w sy sx : ℕ) (c : ℕ × ℕ) (i j : ℕ) : Prop :=
  c.1 ≤ i ∧ i < min (c.1 + sy) h ∧ c.2 ≤ j ∧ j < min (c.2 + sx) w

/-- The count `np.count_nonzero` of a mask restricted to rows `[y0, y1)` and columns
`[x0, x1)`. -/
def countRect (m : Mask) (y0 y1 x0 x1 : ℕ) : ℕ :=
  ((List.range' y0 (y1 - y0)).map fun i =>
    ((List.range' x0 (x1 - x0)).filter fun j => m i j).length).sum

/-- The size `roi.size` of the cell with origin `c`: its pixel count. -/
def cellTotal (h w sy sx : ℕ) (c : ℕ × ℕ) : ℕ :=
  (min (c.1 + sy) h - c.1) * (min (c.2 + sx) w - c.2)

/-- The per-cell percentage `(count_nonzero(roi) / roi.size) * 100`
(lines 188–189) for a given mask. -/
def cellPct (m : Mask) (h w sy sx : ℕ) (c : ℕ × ℕ) : ℚ :=
  (countRect m c.1 (min (c.1 + sy) h) c.2 (min (c.2 + sx) w) : ℚ) /
    (cellTotal h w sy sx c) * 100

/-- The class assigned to the cell with origin `c` (line 192). -/
def cellName (vegM rockM : Mask) (wet fr : Bool) (h w sy sx : ℕ)
    (c : ℕ × ℕ) : String :=
  classify_biome (cellPct vegM h w sy sx c) (cellPct rockM h w sy sx c) wet fr

/-- The update `stats[name] = stats.get(name, 0) + 1` on an insertion-ordered
association list, as Python dicts behave (line 195). -/
def bump : List (String × ℕ) → String → List (String × ℕ)
  | [], k => [(k, 1)]
  | (k0, v) :: rest, k =>
      if k0 = k then (k0, v + 1) :: rest else (k0, v) :: bump rest k

/-- The call `cv2.rectangle(im, (x0, y0), (x1, y1), c, -1)`: opaque fill of the
corner-inclusive rectangle (line 201). -/
def fillRect (im : Img) (x0 y0 x1 y1 : ℕ) (c : ℕ × ℕ × ℕ) : Img :=
  fun i j => if y0 ≤ i ∧ i ≤ y1 ∧ x0 ≤ j ∧ j ≤ x1 then c else im i j

/-- The call `cv2.rectangle(im, (x0, y0), (x1, y1), c, 1)`: a one-pixel border on
the same corner-inclusive rectangle (line 203). -/
def borderRect (im : Img) (x0 y0 x1 y1 : ℕ) (c : ℕ × ℕ × ℕ) : Img :=
  fun i j =>
    if (y0 ≤ i ∧ i ≤ y1 ∧ x0 ≤ j ∧ j ≤ x1) ∧
        (i = y0 ∨ i = y1 ∨ j = x0 ∨ j = x1) then c
    else im i j

/-- One iteration of the grid loop (lines 177–203) acting on the pair
(statistics dict, overlay image): skip the cell when its pixel count is 0,
otherwise bump the histogram and paint the cell (class-colour fill, then
white border). -/
def cellStep (vegM rockM : Mask) (wet fr : Bool) (h w sy sx : ℕ)
    (acc : List (String × ℕ) × Img) (c : ℕ × ℕ) : List (String × ℕ) × Img :=
  if cellTotal h w sy sx c = 0 then acc
  else
    (bump acc.1 (cellName vegM rockM wet fr h w sy sx c),
     borderRect
       (fillRect acc.2 c.2 c.1 (min (c.2 + sx) w) (min (c.1 + sy) h)
         (dictGet COLOR_MAP (cellName vegM rockM wet fr h w sy sx c) (100, 100, 100)))
       c.2 c.1 (min (c.2 + sx) w) (min (c.1 + sy) h) (255, 255, 255))

/-- The whole grid loop: fold `cellStep` over the cell origins starting
from the empty dict and a copy of the source image (lines 171–203). -/
def paintStats (img : Img) (vegM rockM : Mask) (wet fr : Bool)
    (h w sy sx : ℕ) : List (String × ℕ) × Img :=
  (cellList h w sy sx).foldl (cellStep vegM rockM wet fr h w sy sx) ([], img)

/-- The painted/bordered overlay copy after the grid loop. -/
def paintedImg (img : Img) (vegM rockM : Mask) (wet fr : Bool)
    (h w sy sx : ℕ) : Img :=
  (paintStats img vegM rockM wet fr h w sy sx).2

/-- One channel of `cv2.addWeighted(overlay, 0.4, original, 0.6, 0)` on
8-bit data (line 206): round to nearest (the exact value `(2p + 3o)/5`
never lands on a half-integer, so the rounding mode is immaterial) and
saturate to `[0, 255]`. -/
def blendPx (p o : ℕ) : ℕ :=
  (max 0 (min 255 (round ((2 : ℚ) / 5 * p + (3 : ℚ) / 5 * o)))).toNat

/-- The blend `cv2.addWeighted` on one RGB pixel. -/
def blend3 (p o : ℕ × ℕ × ℕ) : ℕ × ℕ × ℕ :=
  (blendPx p.1 o.1, blendPx p.2.1 o.2.1, blendPx p.2.2 o.2.2)

/-- A whole-image coverage percentage
`(np.count_nonzero(mask) / mask.size) * 100` (lines 209–210). -/
def globalPct (m : Mask) (h w : ℕ) : ℚ :=
  (countRect m 0 h 0 w : ℚ) / (h * w) * 100

/-- The values `process_image` returns on success (line 212). -/
structure PipeResult where
  stats : List (String × ℕ)
  final : Img
  globalVeg : ℚ
  globalRock : ℚ

/-- The Python exception kinds `process_image` can die with. -/
inductive PyErr where
  | zeroDivisionError
  | valueError
deriving DecidableEq

/-- The successful result of `process_image` for steps `sy`, `sx`. -/
def pipeResult (img : Img) (grayF : ℕ × ℕ × ℕ → ℕ)
    (labF : ℕ × ℕ × ℕ → ℕ × ℕ × ℕ) (h w sy sx : ℕ)
    (wet fr : Bool) : PipeResult :=
  { stats := (paintStats img (vegMaskOf img)
      (rockMaskOf img grayF labF h w) wet fr h w sy sx).1
  , final := fun i j =>
      blend3 (paintedImg img (vegMaskOf img)
        (rockMaskOf img grayF labF h w) wet fr h w sy sx i j) (img i j)
  , globalVeg := globalPct (vegMaskOf img) h w
  , globalRock := globalPct (rockMaskOf img grayF labF h w) h w }

/-- The pipeline `process_image` of `src/app.py` (lines 152–212) on an
already-decoded `h × w` RGB image.  `grid_size = 0` makes line 168 raise
`ZeroDivisionError`; a zero step makes the `range` call of line 175 or 176
raise `ValueError`; otherwise it returns the statistics dict, the blended
overlay and the two global percentages. -/
def process_image (img : Img) (grayF : ℕ × ℕ × ℕ → ℕ)
    (labF : ℕ × ℕ × ℕ → ℕ × ℕ × ℕ) (h w grid_size : ℕ)
    (wet_soil manual_rocks : Bool) : Except PyErr PipeResult :=
  if grid_size = 0 then .error .zeroDivisionError
  else if h / grid_size = 0 ∨ w / grid_size = 0 then .error .valueError
  else .ok (pipeResult img grayF labF h w (h / grid_size) (w / grid_size)
    wet_soil manual_rocks)

/-- The operations of `process_image`, named for the execution-order
record `process_trace`. -/
inductive PipeStep where
  | computeVegMask
  | computeRockMask
  | gridSetup
  | gridLoop
  | blendStep
deriving DecidableEq

/-- The operations `process_image` performs, in source order, up to the
point where an uncaught Python exception (if any) aborts it: the two mask
computations (lines 164–165) always run first; the grid setup (168–169)
raises `ZeroDivisionError` when `grid_size = 0`; the grid loop (175–176)
raises `ValueError` when a step is 0. -/
def process_trace (h w grid_size : ℕ) : List PipeStep :=
  [.computeVegMask, .computeRockMask] ++
    if grid_size = 0 then []
    else [.gridSetup] ++
      if h / grid_size = 0 ∨ w / grid_size = 0 then []
      else [.gridLoop, .blendStep]

/-- An RGB triple whose three channels are 8-bit values. -/
def bytePx (p : ℕ × ℕ × ℕ) : Prop :=
  p.1 ≤ 255 ∧ p.2.1 ≤ 255 ∧ p.2.2 ≤ 255

/-- C1: for all `vegPct`, `rockPct` in `[0, 100]` and all flag settings,
`classify_biome` returns exactly the class prescribed by the decision
order (embedded as `classifySpec`), boundary values included. -/
theorem classify_matches_spec (v r : ℚ) (hv0 : 0 ≤ v) (hv1 : v ≤ 100)
    (hr0 : 0 ≤ r) (hr1 : r ≤ 100) (w f : Bool) :
    classify_biome v r w f = classifySpec v r w f := by
  have hb : ((decide (r > 8) || f) = true) ↔ (r > 8 ∨ f = true) := by
    simp
  unfold classify_biome classifySpec
  by_cases h1 : v > 80
  · rw [if_pos h1, if_pos h1]
  · rw [if_neg h1, if_neg h1]
    by_cases h2 : v ≥ 50
    · rw [if_pos h2, if_pos (show 50 ≤ v ∧ v ≤ 80 from ⟨h2, by linarith [not_lt.mp h1]⟩)]
    · rw [if_neg h2, if_neg (show ¬(50 ≤ v ∧ v ≤ 80) from fun hc => h2 hc.1)]
      by_cases h3 : v ≥ 5
      · rw [if_pos h3, if_pos (show 5 ≤ v ∧ v < 50 from ⟨h3, not_le.mp h2⟩)]
        by_cases hr : r > 8 ∨ f = true
        · rw [if_pos (hb.mpr hr), if_pos hr]
        · rw [if_neg (fun hc => hr (hb.mp hc)), if_neg hr]
      · rw [if_neg h3, if_neg (show ¬(5 ≤ v ∧ v < 50) from fun hc => h3 hc.1)]
        by_cases hr : r > 8 ∨ f = true
        · rw [if_pos (hb.mpr hr), if_pos hr]
        · rw [if_neg (fun hc => hr (hb.mp hc)), if_neg hr]

/-- C1 witness: the spec agreement instantiated at the concrete boundary
input `vegPct = 50`, `rockPct = 8`, `wetSoil = true`, `forceRock = false`. -/
theorem classify_matches_spec_witness :
    (0 ≤ (50 : ℚ) ∧ (50 : ℚ) ≤ 100 ∧ 0 ≤ (8 : ℚ) ∧ (8 : ℚ) ≤ 100) ∧
      classify_biome 50 8 true false = classifySpec 50 8 true false :=
  ⟨by norm_num,
   classify_matches_spec 50 8 (by norm_num) (by norm_num) (by norm_num) (by norm_num)
     true false⟩

/-- C4 counterexample: the colour table does not map exactly the twelve
Glossary names — it has thirteen entries, among them the key
`"Mata Ciliar"`, which is not one of the twelve. -/
theorem color_map_not_exactly_twelve :
    COLOR_MAP.length = 13 ∧ "Mata Ciliar" ∈ COLOR_MAP.map Prod.fst ∧
      "Mata Ciliar" ∉ glossaryClasses := by decide

/-- C4 amended: the colour table maps the twelve Glossary names plus one
extra entry, `"Mata Ciliar"` (thirteen entries in all), each to a
three-channel 8-bit colour. -/
theorem color_map_keys_amended :
    (∀ n ∈ glossaryClasses, n ∈ COLOR_MAP.map Prod.fst) ∧
    (∀ k ∈ COLOR_MAP.map Prod.fst, k ∈ glossaryClasses ∨ k = "Mata Ciliar") ∧
    COLOR_MAP.length = 13 ∧
    (∀ p ∈ COLOR_MAP, p.2.1 ≤ 255 ∧ p.2.2.1 ≤ 255 ∧ p.2.2.2 ≤ 255) := by decide

/-- C10: every class `classify_biome` can return is a key of `COLOR_MAP`
(so the fallback colour `(100,100,100)` is unreachable), while
the key `"Mata Ciliar"` is in the table but is never returned. -/
theorem classify_in_color_map (v r : ℚ) (w f : Bool) :
    classify_biome v r w f ∈ COLOR_MAP.map Prod.fst ∧
    dictGet COLOR_MAP (classify_biome v r w f) (100, 100, 100) ≠ (100, 100, 100) ∧
    "Mata Ciliar" ∈ COLOR_MAP.map Prod.fst ∧
    classify_biome v r w f ≠ "Mata Ciliar" := by
  unfold classify_biome
  split_ifs <;> exact ⟨by decide, by decide, by decide, by decide⟩

/-- C5: for 8-bit channel values the pixel is vegetated iff the NGRDI
exceeds `0.03`; the denominator is strictly positive (the index is always
defined), and the index lies in `(-1, 1)` — in particular in `(-1-δ, 1+δ)`
for every `δ > 0`. -/
theorem ngrdi_well_defined (r g : ℕ) (hr : r ≤ 255) (hg : g ≤ 255) :
    (calculate_ngrdi_px r g = true ↔
      ((g : ℚ) - r) / ((g : ℚ) + r + 1/1000000) > 3/100) ∧
    0 < (g : ℚ) + r + 1/1000000 ∧
    -1 < ((g : ℚ) - r) / ((g : ℚ) + r + 1/1000000) ∧
    ((g : ℚ) - r) / ((g : ℚ) + r + 1/1000000) < 1 := by
  have hr0 : (0 : ℚ) ≤ (r : ℚ) := Nat.cast_nonneg r
  have hg0 : (0 : ℚ) ≤ (g : ℚ) := Nat.cast_nonneg g
  have hden : 0 < (g : ℚ) + r + 1/1000000 := by positivity
  refine ⟨by simp [calculate_ngrdi_px], hden, ?_, ?_⟩
  · rw [lt_div_iff hden]
    linarith
  · rw [div_lt_one hden]
    linarith

/-- C5 witness: the NGRDI properties at the concrete pixel `R = 0`,
`G = 255`. -/
theorem ngrdi_well_defined_witness :
    ((0 : ℕ) ≤ 255 ∧ (255 : ℕ) ≤ 255) ∧
    ((calculate_ngrdi_px 0 255 = true ↔
      ((255 : ℚ) - 0) / ((255 : ℚ) + 0 + 1/1000000) > 3/100) ∧
    0 < (255 : ℚ) + 0 + 1/1000000 ∧
    -1 < ((255 : ℚ) - 0) / ((255 : ℚ) + 0 + 1/1000000) ∧
    ((255 : ℚ) - 0) / ((255 : ℚ) + 0 + 1/1000000) < 1) :=
  ⟨by norm_num, by
    have h := ngrdi_well_defined 0 255 (by norm_num) (by norm_num)
    simpa using h⟩

/-- C6: a pixel is marked rock iff all three criteria hold — lightness
`L > 140`, chromaticity `sqrt((a-128)² + (b-128)²) < 18` (real square
root, as in the source), and roughness `|Laplacian| > 15`; if any one
fails the pixel is not rock. -/
theorem rock_iff_three_criteria (img : Img)
    (grayF : ℕ × ℕ × ℕ → ℕ) (labF : ℕ × ℕ × ℕ → ℕ × ℕ × ℕ) (h w i j : ℕ) :
    calculate_mineral_indices img grayF labF h w i j = true ↔
      (140 < (labF (img i j)).1 ∧
       Real.sqrt ((((labF (img i j)).2.1 : ℝ) - 128) ^ 2 +
         (((labF (img i j)).2.2 : ℝ) - 128) ^ 2) < 18 ∧
       15 < laplacianAbs (fun y x => grayF (img y x)) h w i j) := by
  have key : ∀ a b : ℕ,
      (Real.sqrt (((a : ℝ) - 128) ^ 2 + ((b : ℝ) - 128) ^ 2) < 18 ↔
        chromaSq a b < 18 ^ 2) := by
    intro a b
    rw [Real.sqrt_lt' (by norm_num : (0 : ℝ) < 18)]
    have hcast : (((a : ℝ) - 128) ^ 2 + ((b : ℝ) - 128) ^ 2) =
        ((chromaSq a b : ℤ) : ℝ) := by
      unfold chromaSq
      push_cast
      ring
    rw [hcast]
    exact_mod_cast Iff.rfl
  simp only [calculate_mineral_indices, Bool.and_eq_true, decide_eq_true_eq,
    key, and_assoc]

/-- Index bound for the ceiling division behind `pyRange`: `k` indexes a
grid row iff its origin `k * step` is below `stop`. -/
theorem lt_ceilDiv_iff {k stop step : ℕ} (hstep : 1 ≤ step) :
    k < (stop + step - 1) / step ↔ k * step < stop := by
  rw [show (k < (stop + step - 1) / step) ↔ (k + 1 ≤ (stop + step - 1) / step) from
    Iff.rfl, Nat.le_div_iff_mul_le hstep]
  have he : (k + 1) * step = k * step + step := by ring
  omega

/-- Membership in `pyRange`: exactly the multiples of `step` below `stop`. -/
theorem mem_pyRange {stop step y : ℕ} (hstep : 1 ≤ step) :
    y ∈ pyRange stop step ↔ ∃ k, y = k * step ∧ y < stop := by
  unfold pyRange
  simp only [List.mem_map, List.mem_range]
  constructor
  · rintro ⟨k, hk, rfl⟩
    exact ⟨k, rfl, (lt_ceilDiv_iff hstep).mp hk⟩
  · rintro ⟨k, rfl, hy⟩
    exact ⟨k, (lt_ceilDiv_iff hstep).mpr hy, rfl⟩

/-- Membership in the cell-origin list is componentwise `pyRange`
membership. -/
theorem mem_cellList {h w sy sx : ℕ} {c : ℕ × ℕ} :
    c ∈ cellList h w sy sx ↔ c.1 ∈ pyRange h sy ∧ c.2 ∈ pyRange w sx := by
  unfold cellList
  simp only [List.mem_flatMap, List.mem_map]
  constructor
  · rintro ⟨y, hy, x, hx, rfl⟩
    exact ⟨hy, hx⟩
  · rintro ⟨hy, hx⟩
    exact ⟨c.1, hy, c.2, hx, rfl⟩

/-- Every in-bounds pixel lies in the cell whose origin is obtained by
rounding the coordinates of the pixel down to multiples of the steps. -/
theorem pixel_mem_own_cell {h w sy sx i j : ℕ} (hsy : 1 ≤ sy) (hsx : 1 ≤ sx)
    (hi : i < h) (hj : j < w) :
    ((i / sy) * sy, (j / sx) * sx) ∈ cellList h w sy sx ∧
      inCell h w sy sx ((i / sy) * sy, (j / sx) * sx) i j := by
  have hy1 : (i / sy) * sy ≤ i := Nat.div_mul_le_self i sy
  have hx1 : (j / sx) * sx ≤ j := Nat.div_mul_le_self j sx
  have hy2 : i < (i / sy) * sy + sy := by
    have h1 := Nat.div_add_mod i sy
    have h2 := Nat.mod_lt i (show 0 < sy from hsy)
    have h3 : sy * (i / sy) = (i / sy) * sy := Nat.mul_comm _ _
    omega
  have hx2 : j < (j / sx) * sx + sx := by
    have h1 := Nat.div_add_mod j sx
    have h2 := Nat.mod_lt j (show 0 < sx from hsx)
    have h3 : sx * (j / sx) = (j / sx) * sx := Nat.mul_comm _ _
    omega
  refine ⟨mem_cellList.mpr ⟨?_, ?_⟩, hy1, lt_min hy2 hi, hx1, lt_min hx2 hj⟩
  · exact (mem_pyRange hsy).mpr ⟨i / sy, rfl, lt_of_le_of_lt hy1 hi⟩
  · exact (mem_pyRange hsx).mpr ⟨j / sx, rfl, lt_of_le_of_lt hx1 hj⟩

/-- A pixel determines the grid cell containing it: any listed cell
containing `(i, j)` is the rounded-down one. -/
theorem inCell_unique {h w sy sx : ℕ} {c : ℕ × ℕ} {i j : ℕ}
    (hsy : 1 ≤ sy) (hsx : 1 ≤ sx)
    (hc : c ∈ cellList h w sy sx) (hin : inCell h w sy sx c i j) :
    c = ((i / sy) * sy, (j / sx) * sx) := by
  obtain ⟨hy, hx⟩ := mem_cellList.mp hc
  obtain ⟨ky, hky, hyh⟩ := (mem_pyRange hsy).mp hy
  obtain ⟨kx, hkx, hxw⟩ := (mem_pyRange hsx).mp hx
  obtain ⟨h1, h2, h3, h4⟩ := hin
  have hi2 : i < c.1 + sy := lt_of_lt_of_le h2 (min_le_left _ _)
  have hj2 : j < c.2 + sx := lt_of_lt_of_le h4 (min_le_left _ _)
  have e1 : i / sy = ky := by
    refine Nat.div_eq_of_lt_le (by omega) ?_
    have : (ky + 1) * sy = ky * sy + sy := by ring
    omega
  have e2 : j / sx = kx := by
    refine Nat.div_eq_of_lt_le (by omega) ?_
    have : (kx + 1) * sx = kx * sx + sx := by ring
    omega
  rw [Prod.ext_iff]
  exact ⟨by rw [e1, ← hky], by rw [e2, ← hkx]⟩

/-- The list `pyRange` has no duplicate origins. -/
theorem pyRange_nodup (stop step : ℕ) (hstep : 1 ≤ step) :
    (pyRange stop step).Nodup := by
  unfold pyRange
  exact (List.nodup_range _).map fun a b hab =>
    Nat.eq_of_mul_eq_mul_right hstep hab

/-- The cell-origin list has no duplicates. -/
theorem cellList_nodup {h w sy sx : ℕ} (hsy : 1 ≤ sy) (hsx : 1 ≤ sx) :
    (cellList h w sy sx).Nodup := by
  unfold cellList
  rw [List.nodup_flatMap]
  constructor
  · intro y _
    exact (pyRange_nodup w sx hsx).map fun a b hab => by
      simpa using hab
  · refine List.Pairwise.imp_of_mem ?_ (pyRange_nodup h sy hsy)
    intro a b _ _ hne
    intro p hpa hpb
    simp only [List.mem_map] at hpa hpb
    obtain ⟨xa, _, rfl⟩ := hpa
    obtain ⟨xb, _, hb⟩ := hpb
    exact hne (congrArg Prod.fst hb).symm

/-- Distinct listed cells share no pixel. -/
theorem cellList_pairwise_disjoint {h w sy sx : ℕ} (hsy : 1 ≤ sy) (hsx : 1 ≤ sx) :
    (cellList h w sy sx).Pairwise fun c1 c2 =>
      ∀ i j : ℕ, ¬(inCell h w sy sx c1 i j ∧ inCell h w sy sx c2 i j) := by
  refine List.Pairwise.imp_of_mem ?_ (cellList_nodup hsy hsx)
  intro c1 c2 h1 h2 hne i j hcontra
  obtain ⟨hin1, hin2⟩ := hcontra
  exact hne ((inCell_unique hsy hsx h1 hin1).trans
    (inCell_unique hsy hsx h2 hin2).symm)

/-- Bumping a histogram key adds exactly one to the total count. -/
theorem sum_bump (s : List (String × ℕ)) (k : String) :
    ((bump s k).map Prod.snd).sum = (s.map Prod.snd).sum + 1 := by
  induction s with
  | nil => simp [bump]
  | cons p t ih =>
    obtain ⟨k0, v⟩ := p
    by_cases hp : k0 = k
    · simp only [bump, if_pos hp, List.map_cons, List.sum_cons]
      omega
    · simp only [bump, if_neg hp, List.map_cons, List.sum_cons, ih]
      omega

/-- Every listed cell has a positive pixel count (the skip guard of
line 185 never fires on a cell the loop visits). -/
theorem cellTotal_ne_zero {h w sy sx : ℕ} (hsy : 1 ≤ sy) (hsx : 1 ≤ sx)
    {c : ℕ × ℕ} (hc : c ∈ cellList h w sy sx) : cellTotal h w sy sx c ≠ 0 := by
  obtain ⟨hy, hx⟩ := mem_cellList.mp hc
  obtain ⟨ky, hky, hyh⟩ := (mem_pyRange hsy).mp hy
  obtain ⟨kx, hkx, hxw⟩ := (mem_pyRange hsx).mp hx
  unfold cellTotal
  apply Nat.mul_ne_zero
  · have hlt : c.1 < min (c.1 + sy) h := lt_min (by omega) hyh
    omega
  · have hlt : c.2 < min (c.2 + sx) w := lt_min (by omega) hxw
    omega

/-- Folding the grid loop over cells of positive pixel count adds one
histogram count per cell. -/
theorem foldl_cellStep_sum (vegM rockM : Mask) (wet fr : Bool) (h w sy sx : ℕ)
    (l : List (ℕ × ℕ)) :
    ∀ (s : List (String × ℕ)) (im : Img),
      (∀ c ∈ l, cellTotal h w sy sx c ≠ 0) →
      ((l.foldl (cellStep vegM rockM wet fr h w sy sx) (s, im)).1.map
        Prod.snd).sum = (s.map Prod.snd).sum + l.length := by
  induction l with
  | nil => intro s im _; simp
  | cons c t ih =>
    intro s im hl
    have hc := hl c (List.mem_cons_self c t)
    rw [List.foldl_cons]
    rcases hsi : cellStep vegM rockM wet fr h w sy sx (s, im) c with ⟨s2, im2⟩
    have hs2 : s2 = bump s (cellName vegM rockM wet fr h w sy sx c) := by
      have hfst : (cellStep vegM rockM wet fr h w sy sx (s, im) c).1 =
          bump s (cellName vegM rockM wet fr h w sy sx c) := by
        unfold cellStep
        rw [if_neg hc]
      rw [hsi] at hfst
      exact hfst
    rw [ih s2 im2 (fun c2 hc2 => hl c2 (List.mem_cons_of_mem _ hc2)), hs2, sum_bump]
    simp only [List.length_cons]
    omega

/-- C2: with both steps ≥ 1, the cells of the grid walk are pairwise disjoint,
every in-bounds pixel lies in exactly one cell, every cell lies inside the
image bounds, and the histogram counts sum to the number of cells. -/
theorem grid_partition_histogram (h w gs sy sx : ℕ) (vegM rockM : Mask)
    (wet fr : Bool) (im : Img)
    (hsy : sy = h / gs) (hsx : sx = w / gs) (hsy1 : 1 ≤ sy) (hsx1 : 1 ≤ sx) :
    ((cellList h w sy sx).Pairwise fun c1 c2 =>
      ∀ i j : ℕ, ¬(inCell h w sy sx c1 i j ∧ inCell h w sy sx c2 i j)) ∧
    (∀ i j : ℕ, i < h → j < w →
      ∃! c : ℕ × ℕ, c ∈ cellList h w sy sx ∧ inCell h w sy sx c i j) ∧
    (∀ c ∈ cellList h w sy sx, ∀ i j : ℕ, inCell h w sy sx c i j → i < h ∧ j < w) ∧
    (((cellList h w sy sx).foldl (cellStep vegM rockM wet fr h w sy sx)
        ([], im)).1.map Prod.snd).sum = (cellList h w sy sx).length := by
  refine ⟨cellList_pairwise_disjoint hsy1 hsx1, ?_, ?_, ?_⟩
  · intro i j hi hj
    obtain ⟨hmem, hin⟩ := pixel_mem_own_cell hsy1 hsx1 hi hj
    exact ⟨_, ⟨hmem, hin⟩, fun c2 hc2 => inCell_unique hsy1 hsx1 hc2.1 hc2.2⟩
  · intro c _ i j hin
    exact ⟨lt_of_lt_of_le hin.2.1 (min_le_right _ _),
           lt_of_lt_of_le hin.2.2.2 (min_le_right _ _)⟩
  · have hsum := foldl_cellStep_sum vegM rockM wet fr h w sy sx
      (cellList h w sy sx) [] im
      (fun c hc => cellTotal_ne_zero hsy1 hsx1 hc)
    simpa using hsum

/-- C2 witness: the grid partition property instantiated on a 4×4 image
with gridSize 2 (both steps 2, four cells). -/
theorem grid_partition_histogram_witness :
    ((2 : ℕ) = 4 / 2 ∧ (2 : ℕ) = 4 / 2 ∧ (1 : ℕ) ≤ 2 ∧ (1 : ℕ) ≤ 2) ∧
    (((cellList 4 4 2 2).Pairwise fun c1 c2 =>
      ∀ i j : ℕ, ¬(inCell 4 4 2 2 c1 i j ∧ inCell 4 4 2 2 c2 i j)) ∧
    (∀ i j : ℕ, i < 4 → j < 4 →
      ∃! c : ℕ × ℕ, c ∈ cellList 4 4 2 2 ∧ inCell 4 4 2 2 c i j) ∧
    (∀ c ∈ cellList 4 4 2 2, ∀ i j : ℕ, inCell 4 4 2 2 c i j → i < 4 ∧ j < 4) ∧
    (((cellList 4 4 2 2).foldl
        (cellStep (fun _ _ => false) (fun _ _ => false) false false 4 4 2 2)
        ([], fun _ _ => (0, 0, 0))).1.map Prod.snd).sum =
      (cellList 4 4 2 2).length) :=
  ⟨by norm_num,
   grid_partition_histogram 4 4 2 2 2 (fun _ _ => false) (fun _ _ => false)
     false false (fun _ _ => (0, 0, 0)) (by norm_num) (by norm_num)
     (by norm_num) (by norm_num)⟩

/-- C3 counterexample: on a 5×5 image with gridSize 10 both steps are 0,
yet both mask computations appear in the execution trace (they run before
the failure), and the pipeline dies with a plain `ValueError` raised by
`range`, not a dedicated invalid-grid rejection issued before mask
computation. -/
theorem grid_rejection_counterexample :
    (5 : ℕ) / 10 = 0 ∧
    PipeStep.computeVegMask ∈ process_trace 5 5 10 ∧
    PipeStep.computeRockMask ∈ process_trace 5 5 10 ∧
    process_image (fun _ _ => (0, 0, 0)) (fun p => p.1) (fun p => p) 5 5 10
      false false = .error .valueError :=
  ⟨by norm_num, by decide, by decide, rfl⟩

/-- C3 amended: a `gridSize ≥ 1` that makes a step 0 yields no result — the
pipeline raises an uncaught `ValueError` at the grid loop — but only after
both full-image masks have been computed; no rejection happens before mask
computation. -/
theorem zero_step_error_after_masks (img : Img) (grayF : ℕ × ℕ × ℕ → ℕ)
    (labF : ℕ × ℕ × ℕ → ℕ × ℕ × ℕ) (h w gs : ℕ) (wet fr : Bool)
    (hgs : gs ≠ 0) (hstep : h / gs = 0 ∨ w / gs = 0) :
    process_image img grayF labF h w gs wet fr = .error .valueError ∧
    PipeStep.computeVegMask ∈ process_trace h w gs ∧
    PipeStep.computeRockMask ∈ process_trace h w gs := by
  refine ⟨?_, ?_, ?_⟩
  · unfold process_image
    rw [if_neg hgs, if_pos hstep]
  · unfold process_trace
    simp
  · unfold process_trace
    simp

/-- C3 witness: the amended behaviour at the concrete 5×5 image with
gridSize 10. -/
theorem zero_step_error_after_masks_witness :
    ((10 : ℕ) ≠ 0 ∧ ((5 : ℕ) / 10 = 0 ∨ (5 : ℕ) / 10 = 0)) ∧
    (process_image (fun _ _ => (7, 7, 7)) (fun p => p.2.1) (fun p => p) 5 5 10
        false false = .error .valueError ∧
      PipeStep.computeVegMask ∈ process_trace 5 5 10 ∧
      PipeStep.computeRockMask ∈ process_trace 5 5 10) :=
  ⟨by norm_num,
   zero_step_error_after_masks (fun _ _ => (7, 7, 7)) (fun p => p.2.1)
     (fun p => p) 5 5 10 false false (by norm_num) (by norm_num)⟩

/-- The Laplacian of a constant grayscale image vanishes everywhere. -/
theorem laplacianAbs_const (g0 : ℕ) (h w i j : ℕ) :
    laplacianAbs (fun _ _ => g0) h w i j = 0 := by
  show |(g0 : ℤ) + (g0 : ℤ) + (g0 : ℤ) + (g0 : ℤ) - 4 * (g0 : ℤ)| = 0
  rw [show (g0 : ℤ) + (g0 : ℤ) + (g0 : ℤ) + (g0 : ℤ) - 4 * (g0 : ℤ) = 0 from by
    ring]
  exact abs_zero

/-- On a constant-colour image the rock mask is everywhere false: the
roughness criterion fails (the Laplacian is zero), whatever the colour
conversions return. -/
theorem mineral_flat (p0 : ℕ × ℕ × ℕ) (grayF : ℕ × ℕ × ℕ → ℕ)
    (labF : ℕ × ℕ × ℕ → ℕ × ℕ × ℕ) (h w i j : ℕ) :
    calculate_mineral_indices (fun _ _ => p0) grayF labF h w i j = false := by
  unfold calculate_mineral_indices
  have hlap : laplacianAbs (fun y x => grayF ((fun _ _ => p0) y x)) h w i j = 0 :=
    laplacianAbs_const (grayF p0) h w i j
  rw [hlap]
  simp

/-- A pixel with equal red and green channels has NGRDI 0 and is not
vegetated. -/
theorem ngrdi_equal_channels (c : ℕ) : calculate_ngrdi_px c c = false := by
  unfold calculate_ngrdi_px
  rw [decide_eq_false_iff_not, sub_self, zero_div]
  norm_num

/-- An all-false mask has count 0 on every rectangle. -/
theorem countRect_false {m : Mask} (hm : ∀ i j, m i j = false)
    (y0 y1 x0 x1 : ℕ) : countRect m y0 y1 x0 x1 = 0 := by
  unfold countRect
  have hfil : ∀ i, ((List.range' x0 (x1 - x0)).filter fun j => m i j) = [] := by
    intro i
    rw [List.filter_eq_nil_iff]
    intro a _
    simp [hm]
  simp [hfil]

/-- All-false masks give a 0% cell percentage. -/
theorem cellPct_false {m : Mask} (hm : ∀ i j, m i j = false)
    (h w sy sx : ℕ) (c : ℕ × ℕ) : cellPct m h w sy sx c = 0 := by
  unfold cellPct
  rw [countRect_false hm]
  simp

/-- The decision function at 0% vegetation, 0% rock, dry soil, no forced
rock. -/
theorem classify_zero_dry : classify_biome 0 0 false false = "Campo Limpo" := by
  unfold classify_biome
  norm_num

/-- With all-false masks and both flags off, every cell is classified
Campo Limpo. -/
theorem cellName_false_masks {vegM rockM : Mask}
    (hveg : ∀ i j, vegM i j = false) (hrock : ∀ i j, rockM i j = false)
    (h w sy sx : ℕ) (c : ℕ × ℕ) :
    cellName vegM rockM false false h w sy sx c = "Campo Limpo" := by
  unfold cellName
  rw [cellPct_false hveg, cellPct_false hrock]
  exact classify_zero_dry

/-- Folding the grid loop over cells that all get the same class `k` and
have positive pixel count turns `[(k, m)]` into `[(k, m + length)]`. -/
theorem foldl_cellStep_stats_const (vegM rockM : Mask) (wet fr : Bool)
    (h w sy sx : ℕ) (k : String) (l : List (ℕ × ℕ)) :
    (∀ c ∈ l, cellTotal h w sy sx c ≠ 0 ∧
      cellName vegM rockM wet fr h w sy sx c = k) →
    ∀ (m : ℕ) (im : Img),
      (l.foldl (cellStep vegM rockM wet fr h w sy sx) ([(k, m)], im)).1 =
        [(k, m + l.length)] := by
  induction l with
  | nil => intro _ m im; simp
  | cons c t ih =>
    intro hl m im
    obtain ⟨hc, hk⟩ := hl c (List.mem_cons_self c t)
    rw [List.foldl_cons]
    rcases hsi : cellStep vegM rockM wet fr h w sy sx ([(k, m)], im) c with ⟨s2, im2⟩
    have hs2 : s2 = [(k, m + 1)] := by
      have hfst : (cellStep vegM rockM wet fr h w sy sx ([(k, m)], im) c).1 =
          bump [(k, m)] (cellName vegM rockM wet fr h w sy sx c) := by
        unfold cellStep
        rw [if_neg hc]
      rw [hsi] at hfst
      have hfst2 : s2 = bump [(k, m)] (cellName vegM rockM wet fr h w sy sx c) :=
        hfst
      rw [hfst2, hk]
      simp [bump]
    rw [hs2]
    rw [ih (fun c2 hc2 => hl c2 (List.mem_cons_of_mem _ hc2)) (m + 1) im2]
    simp only [List.length_cons]
    rw [show m + 1 + t.length = m + (t.length + 1) from by omega]

/-- Folding the grid loop from the empty dict over a nonempty cell list,
all of whose cells get class `k` and are nonempty, yields the singleton
histogram `[(k, length)]`. -/
theorem foldl_cellStep_stats_all (vegM rockM : Mask) (wet fr : Bool)
    (h w sy sx : ℕ) (k : String) (l : List (ℕ × ℕ))
    (hl : ∀ c ∈ l, cellTotal h w sy sx c ≠ 0 ∧
      cellName vegM rockM wet fr h w sy sx c = k)
    (im : Img) (hne : l ≠ []) :
    (l.foldl (cellStep vegM rockM wet fr h w sy sx) ([], im)).1 =
      [(k, l.length)] := by
  cases l with
  | nil => exact absurd rfl hne
  | cons c t =>
    obtain ⟨hc, hk⟩ := hl c (List.mem_cons_self c t)
    rw [List.foldl_cons]
    rcases hsi : cellStep vegM rockM wet fr h w sy sx ([], im) c with ⟨s2, im2⟩
    have hs2 : s2 = [(k, 1)] := by
      have hfst : (cellStep vegM rockM wet fr h w sy sx ([], im) c).1 =
          bump [] (cellName vegM rockM wet fr h w sy sx c) := by
        unfold cellStep
        rw [if_neg hc]
      rw [hsi] at hfst
      have hfst2 : s2 = bump [] (cellName vegM rockM wet fr h w sy sx c) := hfst
      rw [hfst2, hk]
      rfl
    rw [hs2]
    rw [foldl_cellStep_stats_const vegM rockM wet fr h w sy sx k t
      (fun c2 hc2 => hl c2 (List.mem_cons_of_mem _ hc2)) 1 im2]
    simp only [List.length_cons]
    rw [Nat.add_comm]

/-- C8: the 100×100 all-mid-gray image (R=G=B=128) with gridSize 10 and
both flags false classifies all 100 cells as Campo Limpo — histogram
`[("Campo Limpo", 100)]` — with zero global vegetation and rock
percentages, for any grayscale/Lab conversion functions. -/
theorem all_gray_campo_limpo (grayF : ℕ × ℕ × ℕ → ℕ)
    (labF : ℕ × ℕ × ℕ → ℕ × ℕ × ℕ) :
    ∃ res : PipeResult,
      process_image (fun _ _ => (128, 128, 128)) grayF labF 100 100 10
        false false = .ok res ∧
      res.stats = [("Campo Limpo", 100)] ∧
      res.globalVeg = 0 ∧ res.globalRock = 0 := by
  have hveg : ∀ i j : ℕ, vegMaskOf (fun _ _ => (128, 128, 128)) i j = false :=
    fun i j => ngrdi_equal_channels 128
  have hrock : ∀ i j : ℕ,
      rockMaskOf (fun _ _ => (128, 128, 128)) grayF labF 100 100 i j = false :=
    fun i j => mineral_flat (128, 128, 128) grayF labF 100 100 i j
  refine ⟨pipeResult (fun _ _ => (128, 128, 128)) grayF labF 100 100 10 10
    false false, ?_, ?_, ?_, ?_⟩
  · unfold process_image
    rw [if_neg (by norm_num : ¬(10 : ℕ) = 0),
        if_neg (by norm_num : ¬((100 : ℕ) / 10 = 0 ∨ (100 : ℕ) / 10 = 0))]
  · simp only [pipeResult]
    unfold paintStats
    rw [foldl_cellStep_stats_all _ _ false false 100 100 10 10 "Campo Limpo"
      (cellList 100 100 10 10)
      (fun c hc => ⟨cellTotal_ne_zero (by norm_num) (by norm_num) hc,
        cellName_false_masks hveg hrock 100 100 10 10 c⟩)
      (fun _ _ => (128, 128, 128)) (by decide)]
    rw [show (cellList 100 100 10 10).length = 100 from rfl]
  · simp only [pipeResult]
    unfold globalPct
    rw [countRect_false hveg]
    simp
  · simp only [pipeResult]
    unfold globalPct
    rw [countRect_false hrock]
    simp

/-- C9: the global percentages are computed from the full-resolution masks
only — for any two grid sizes with nonzero steps the pipeline returns
identical `globalVeg`/`globalRock`, both equal to
`100 × (mask true count) / (pixel count)`. -/
theorem global_pct_grid_independent (img : Img) (grayF : ℕ × ℕ × ℕ → ℕ)
    (labF : ℕ × ℕ × ℕ → ℕ × ℕ × ℕ) (h w : ℕ) (wet fr : Bool) (g1 g2 : ℕ)
    (hg1 : g1 ≠ 0) (hg2 : g2 ≠ 0)
    (h1y : h / g1 ≠ 0) (h1x : w / g1 ≠ 0) (h2y : h / g2 ≠ 0) (h2x : w / g2 ≠ 0) :
    ∃ r1 r2 : PipeResult,
      process_image img grayF labF h w g1 wet fr = .ok r1 ∧
      process_image img grayF labF h w g2 wet fr = .ok r2 ∧
      r1.globalVeg = r2.globalVeg ∧ r1.globalRock = r2.globalRock ∧
      r1.globalVeg = (countRect (vegMaskOf img) 0 h 0 w : ℚ) / (h * w) * 100 ∧
      r1.globalRock = (countRect (rockMaskOf img grayF labF h w) 0 h 0 w : ℚ) /
        (h * w) * 100 := by
  refine ⟨pipeResult img grayF labF h w (h / g1) (w / g1) wet fr,
          pipeResult img grayF labF h w (h / g2) (w / g2) wet fr,
          ?_, ?_, rfl, rfl, rfl, rfl⟩
  · unfold process_image
    rw [if_neg hg1, if_neg (by push_neg; exact ⟨h1y, h1x⟩)]
  · unfold process_image
    rw [if_neg hg2, if_neg (by push_neg; exact ⟨h2y, h2x⟩)]

/-- C9 witness: grid independence of the global percentages on a 4×4
constant image with grid sizes 2 and 4. -/
theorem global_pct_grid_independent_witness :
    ((2 : ℕ) ≠ 0 ∧ (4 : ℕ) ≠ 0 ∧ (4 : ℕ) / 2 ≠ 0 ∧ (4 : ℕ) / 4 ≠ 0) ∧
    (∃ r1 r2 : PipeResult,
      process_image (fun _ _ => (1, 2, 3)) (fun p => p.1) (fun p => p) 4 4 2
        true false = .ok r1 ∧
      process_image (fun _ _ => (1, 2, 3)) (fun p => p.1) (fun p => p) 4 4 4
        true false = .ok r2 ∧
      r1.globalVeg = r2.globalVeg ∧ r1.globalRock = r2.globalRock ∧
      r1.globalVeg = (countRect (vegMaskOf (fun _ _ => (1, 2, 3))) 0 4 0 4 : ℚ) /
        (4 * 4) * 100 ∧
      r1.globalRock = (countRect (rockMaskOf (fun _ _ => (1, 2, 3)) (fun p => p.1)
        (fun p => p) 4 4) 0 4 0 4 : ℚ) / (4 * 4) * 100) :=
  ⟨by norm_num,
   global_pct_grid_independent (fun _ _ => (1, 2, 3)) (fun p => p.1) (fun p => p)
     4 4 true false 2 4 (by norm_num) (by norm_num) (by norm_num) (by norm_num)
     (by norm_num) (by norm_num)⟩

/-- The lookup `dictGet` satisfies any predicate satisfied by every table value and by
the default. -/
theorem dictGet_bound {α : Type} (P : α → Prop) (m : List (String × α))
    (k : String) (d : α) (hm : ∀ p ∈ m, P p.2) (hd : P d) :
    P (dictGet m k d) := by
  induction m with
  | nil => exact hd
  | cons p rest ih =>
    obtain ⟨k0, v⟩ := p
    unfold dictGet
    by_cases hk : k0 = k
    · rw [if_pos hk]
      exact hm (k0, v) (List.mem_cons_self _ _)
    · rw [if_neg hk]
      exact ih fun q hq => hm q (List.mem_cons_of_mem _ hq)

/-- Every colour in the display table is 8-bit. -/
theorem color_map_byte : ∀ p ∈ COLOR_MAP,
    p.2.1 ≤ 255 ∧ p.2.2.1 ≤ 255 ∧ p.2.2.2 ≤ 255 := by decide

/-- The grid loop writes only table colours, the fallback grey and white
onto the overlay, so it preserves 8-bit boundedness of every pixel. -/
theorem foldl_cellStep_snd_byte (vegM rockM : Mask) (wet fr : Bool)
    (h w sy sx : ℕ) (l : List (ℕ × ℕ)) :
    ∀ (s : List (String × ℕ)) (im : Img), (∀ i j, bytePx (im i j)) →
      ∀ i j, bytePx ((l.foldl (cellStep vegM rockM wet fr h w sy sx)
        (s, im)).2 i j) := by
  induction l with
  | nil => intro s im him i j; exact him i j
  | cons c t ih =>
    intro s im him
    rw [List.foldl_cons]
    rcases hsi : cellStep vegM rockM wet fr h w sy sx (s, im) c with ⟨s2, im2⟩
    have him2 : ∀ i j, bytePx (im2 i j) := by
      intro i2 j2
      have hsnd : (cellStep vegM rockM wet fr h w sy sx (s, im) c).2 = im2 := by
        rw [hsi]
      by_cases hc : cellTotal h w sy sx c = 0
      · have he : im2 = im := by
          rw [← hsnd]
          unfold cellStep
          rw [if_pos hc]
        rw [he]
        exact him i2 j2
      · have he : im2 = borderRect
            (fillRect im c.2 c.1 (min (c.2 + sx) w) (min (c.1 + sy) h)
              (dictGet COLOR_MAP (cellName vegM rockM wet fr h w sy sx c)
                (100, 100, 100)))
            c.2 c.1 (min (c.2 + sx) w) (min (c.1 + sy) h) (255, 255, 255) := by
          rw [← hsnd]
          unfold cellStep
          rw [if_neg hc]
        rw [he]
        simp only [borderRect, fillRect]
        split_ifs with h1 h2
        · exact ⟨by norm_num, by norm_num, by norm_num⟩
        · exact dictGet_bound (fun p => bytePx p) COLOR_MAP _ _
            (fun q hq => color_map_byte q hq)
            ⟨by norm_num, by norm_num, by norm_num⟩
        · exact him i2 j2
    exact ih s2 im2 him2

/-- For 8-bit inputs the blended channel equals the rounded composite with
no saturation, and stays 8-bit. -/
theorem blendPx_eq_round (p o : ℕ) (hp : p ≤ 255) (ho : o ≤ 255) :
    blendPx p o = (round ((2 : ℚ)/5 * p + (3 : ℚ)/5 * o)).toNat ∧
    blendPx p o ≤ 255 := by
  have hp2 : (p : ℚ) ≤ 255 := by exact_mod_cast hp
  have ho2 : (o : ℚ) ≤ 255 := by exact_mod_cast ho
  have hp0 : (0 : ℚ) ≤ (p : ℚ) := Nat.cast_nonneg p
  have ho0 : (0 : ℚ) ≤ (o : ℚ) := Nat.cast_nonneg o
  have hr0 : 0 ≤ round ((2 : ℚ)/5 * p + (3 : ℚ)/5 * o) := by
    rw [round_eq]
    refine Int.le_floor.mpr ?_
    push_cast
    linarith
  have hr255 : round ((2 : ℚ)/5 * p + (3 : ℚ)/5 * o) ≤ 255 := by
    rw [round_eq]
    have hlt : (⌊(2 : ℚ)/5 * p + (3 : ℚ)/5 * o + 1/2⌋ : ℤ) < 256 := by
      rw [Int.floor_lt]
      push_cast
      linarith
    omega
  unfold blendPx
  rw [min_eq_right hr255, max_eq_right hr0]
  exact ⟨rfl, by omega⟩

/-- C7 amended: each channel of each output pixel is
`round(0.4 · painted + 0.6 · original)` saturated to `[0, 255]`; for an
8-bit source the saturation is inert (the rounded composite already lies in
`[0, 255]`) and the output pixel is 8-bit — a linear alpha composite of the
painted copy with the source, not a replacement. -/
theorem blend_rounded_composite (img : Img) (grayF : ℕ × ℕ × ℕ → ℕ)
    (labF : ℕ × ℕ × ℕ → ℕ × ℕ × ℕ) (h w gs : ℕ) (wet fr : Bool)
    (res : PipeResult)
    (hok : process_image img grayF labF h w gs wet fr = .ok res)
    (himg : ∀ i j : ℕ, bytePx (img i j)) (i j : ℕ) :
    res.final i j =
      ((max 0 (min 255 (round ((2 : ℚ)/5 * (paintedImg img (vegMaskOf img)
          (rockMaskOf img grayF labF h w) wet fr h w (h / gs) (w / gs) i j).1 +
          (3 : ℚ)/5 * (img i j).1)))).toNat,
       (max 0 (min 255 (round ((2 : ℚ)/5 * (paintedImg img (vegMaskOf img)
          (rockMaskOf img grayF labF h w) wet fr h w (h / gs) (w / gs) i j).2.1 +
          (3 : ℚ)/5 * (img i j).2.1)))).toNat,
       (max 0 (min 255 (round ((2 : ℚ)/5 * (paintedImg img (vegMaskOf img)
          (rockMaskOf img grayF labF h w) wet fr h w (h / gs) (w / gs) i j).2.2 +
          (3 : ℚ)/5 * (img i j).2.2)))).toNat) ∧
    res.final i j =
      ((round ((2 : ℚ)/5 * (paintedImg img (vegMaskOf img)
          (rockMaskOf img grayF labF h w) wet fr h w (h / gs) (w / gs) i j).1 +
          (3 : ℚ)/5 * (img i j).1)).toNat,
       (round ((2 : ℚ)/5 * (paintedImg img (vegMaskOf img)
          (rockMaskOf img grayF labF h w) wet fr h w (h / gs) (w / gs) i j).2.1 +
          (3 : ℚ)/5 * (img i j).2.1)).toNat,
       (round ((2 : ℚ)/5 * (paintedImg img (vegMaskOf img)
          (rockMaskOf img grayF labF h w) wet fr h w (h / gs) (w / gs) i j).2.2 +
          (3 : ℚ)/5 * (img i j).2.2)).toNat) ∧
    bytePx (res.final i j) := by
  have hres : res = pipeResult img grayF labF h w (h / gs) (w / gs) wet fr := by
    unfold process_image at hok
    by_cases h0 : gs = 0
    · rw [if_pos h0] at hok
      simp at hok
    · rw [if_neg h0] at hok
      by_cases h1 : h / gs = 0 ∨ w / gs = 0
      · rw [if_pos h1] at hok
        simp at hok
      · rw [if_neg h1] at hok
        injection hok with hh
        exact hh.symm
  subst hres
  have hP : bytePx (paintedImg img (vegMaskOf img)
      (rockMaskOf img grayF labF h w) wet fr h w (h / gs) (w / gs) i j) := by
    unfold paintedImg paintStats
    exact foldl_cellStep_snd_byte _ _ wet fr h w (h / gs) (w / gs) _ [] img himg i j
  obtain ⟨hP1, hP2, hP3⟩ := hP
  obtain ⟨hI1, hI2, hI3⟩ := himg i j
  refine ⟨rfl, ?_, ?_⟩
  · show blend3 (paintedImg img (vegMaskOf img)
        (rockMaskOf img grayF labF h w) wet fr h w (h / gs) (w / gs) i j)
        (img i j) = _
    unfold blend3
    rw [(blendPx_eq_round _ _ hP1 hI1).1, (blendPx_eq_round _ _ hP2 hI2).1,
        (blendPx_eq_round _ _ hP3 hI3).1]
  · show bytePx (blend3 (paintedImg img (vegMaskOf img)
        (rockMaskOf img grayF labF h w) wet fr h w (h / gs) (w / gs) i j)
        (img i j))
    unfold blend3
    exact ⟨(blendPx_eq_round _ _ hP1 hI1).2, (blendPx_eq_round _ _ hP2 hI2).2,
           (blendPx_eq_round _ _ hP3 hI3).2⟩

/-- C7 counterexample: on the 1×1 mid-gray image (every channel 128) with
grid size 1, the painted copy at the sole pixel is white (255), the stored
blended red channel is 179, yet `0.4·255 + 0.6·128 = 178.8` even after
clamping to `[0, 255]`; so the claimed exact (unrounded) composite differs
from the pixel the pipeline stores. -/
theorem blend_exact_counterexample :
    (paintedImg (fun _ _ => (128, 128, 128))
        (vegMaskOf (fun _ _ => (128, 128, 128)))
        (rockMaskOf (fun _ _ => (128, 128, 128)) (fun p => p.1)
          (fun p => (137, 128, 128)) 1 1) false false 1 1 1 1 0 0).1 = 255 ∧
    ((pipeResult (fun _ _ => (128, 128, 128)) (fun p => p.1)
        (fun p => (137, 128, 128)) 1 1 1 1 false false).final 0 0).1 = 179 ∧
    (((pipeResult (fun _ _ => (128, 128, 128)) (fun p => p.1)
        (fun p => (137, 128, 128)) 1 1 1 1 false false).final 0 0).1 : ℚ) ≠
      max 0 (min 255 ((2 : ℚ)/5 * 255 + (3 : ℚ)/5 * 128)) := by
  have hpaint : paintedImg (fun _ _ => (128, 128, 128))
      (vegMaskOf (fun _ _ => (128, 128, 128)))
      (rockMaskOf (fun _ _ => (128, 128, 128)) (fun p => p.1)
        (fun p => (137, 128, 128)) 1 1) false false 1 1 1 1 0 0 =
      (255, 255, 255) := by
    unfold paintedImg paintStats
    rw [show cellList 1 1 1 1 = [(0, 0)] from rfl]
    rw [List.foldl_cons, List.foldl_nil]
    unfold cellStep
    rw [if_neg (show cellTotal 1 1 1 1 (0, 0) ≠ 0 from by decide)]
    simp only [borderRect]
    norm_num
  have hfinal : ((pipeResult (fun _ _ => (128, 128, 128)) (fun p => p.1)
      (fun p => (137, 128, 128)) 1 1 1 1 false false).final 0 0).1 = 179 := by
    simp only [pipeResult]
    rw [hpaint]
    simp only [blend3]
    unfold blendPx
    rw [round_eq]
    norm_num
    rfl
  refine ⟨?_, hfinal, ?_⟩
  · rw [hpaint]
  · rw [hfinal]
    norm_num

/-- C7 witness: the rounded-composite formula instantiated at the sole
pixel of the 1×1 mid-gray image with grid size 1. -/
theorem blend_rounded_composite_witness :
    (process_image (fun _ _ => (128, 128, 128)) (fun p => p.1)
        (fun p => (137, 128, 128)) 1 1 1 false false = .ok
      (pipeResult (fun _ _ => (128, 128, 128)) (fun p => p.1)
        (fun p => (137, 128, 128)) 1 1 1 1 false false)) ∧
    (∀ i j : ℕ, bytePx ((fun _ _ => ((128 : ℕ), (128 : ℕ), (128 : ℕ))) i j)) ∧
    ((pipeResult (fun _ _ => (128, 128, 128)) (fun p => p.1)
        (fun p => (137, 128, 128)) 1 1 1 1 false false).final 0 0 =
      ((max 0 (min 255 (round ((2 : ℚ)/5 * (paintedImg (fun _ _ => (128, 128, 128))
          (vegMaskOf (fun _ _ => (128, 128, 128)))
          (rockMaskOf (fun _ _ => (128, 128, 128)) (fun p => p.1)
            (fun p => (137, 128, 128)) 1 1) false false 1 1 1 1 0 0).1 +
          (3 : ℚ)/5 * ((128 : ℕ) : ℚ))))).toNat,
       (max 0 (min 255 (round ((2 : ℚ)/5 * (paintedImg (fun _ _ => (128, 128, 128))
          (vegMaskOf (fun _ _ => (128, 128, 128)))
          (rockMaskOf (fun _ _ => (128, 128, 128)) (fun p => p.1)
            (fun p => (137, 128, 128)) 1 1) false false 1 1 1 1 0 0).2.1 +
          (3 : ℚ)/5 * ((128 : ℕ) : ℚ))))).toNat,
       (max 0 (min 255 (round ((2 : ℚ)/5 * (paintedImg (fun _ _ => (128, 128, 128))
          (vegMaskOf (fun _ _ => (128, 128, 128)))
          (rockMaskOf (fun _ _ => (128, 128, 128)) (fun p => p.1)
            (fun p => (137, 128, 128)) 1 1) false false 1 1 1 1 0 0).2.2 +
          (3 : ℚ)/5 * ((128 : ℕ) : ℚ))))).toNat) ∧
     (pipeResult (fun _ _ => (128, 128, 128)) (fun p => p.1)
        (fun p => (137, 128, 128)) 1 1 1 1 false false).final 0 0 =
      ((round ((2 : ℚ)/5 * (paintedImg (fun _ _ => (128, 128, 128))
          (vegMaskOf (fun _ _ => (128, 128, 128)))
          (rockMaskOf (fun _ _ => (128, 128, 128)) (fun p => p.1)
            (fun p => (137, 128, 128)) 1 1) false false 1 1 1 1 0 0).1 +
          (3 : ℚ)/5 * ((128 : ℕ) : ℚ))).toNat,
       (round ((2 : ℚ)/5 * (paintedImg (fun _ _ => (128, 128, 128))
          (vegMaskOf (fun _ _ => (128, 128, 128)))
          (rockMaskOf (fun _ _ => (128, 128, 128)) (fun p => p.1)
            (fun p => (137, 128, 128)) 1 1) false false 1 1 1 1 0 0).2.1 +
          (3 : ℚ)/5 * ((128 : ℕ) : ℚ))).toNat,
       (round ((2 : ℚ)/5 * (paintedImg (fun _ _ => (128, 128, 128))
          (vegMaskOf (fun _ _ => (128, 128, 128)))
          (rockMaskOf (fun _ _ => (128, 128, 128)) (fun p => p.1)
            (fun p => (137, 128, 128)) 1 1) false false 1 1 1 1 0 0).2.2 +
          (3 : ℚ)/5 * ((128 : ℕ) : ℚ))).toNat) ∧
     bytePx ((pipeResult (fun _ _ => (128, 128, 128)) (fun p => p.1)
        (fun p => (137, 128, 128)) 1 1 1 1 false false).final 0 0)) :=
  ⟨rfl, fun i j => ⟨by norm_num, by norm_num, by norm_num⟩,
   blend_rounded_composite (fun _ _ => (128, 128, 128)) (fun p => p.1)
     (fun p => (137, 128, 128)) 1 1 1 false false
     (pipeResult (fun _ _ => (128, 128, 128)) (fun p => p.1)
       (fun p => (137, 128, 128)) 1 1 1 1 false false) rfl
     (fun i j => ⟨by norm_num, by norm_num, by norm_num⟩) 0 0⟩
